import Mathlib

/-!
Verification of the conversation/session core of the routine-builder script
(`script.js`): the payload sanitizer, the selected-products payload builder,
the topic gate, the selection reconciliation from durable storage, and the
conversation state machine (visible transcript, hidden context log, request
assembly, routine generation and follow-up submission).

Text is modelled as `List Char`; the DOM, `fetch` and `localStorage` are
external collaborators, so the remote call outcome and the stored value are
explicit parameters of the corresponding functions.
-/

namespace RoutineBuilder

abbrev Text := List Char

def isWs (c : Char) : Bool := c.isWhitespace

/-- One step of `String.replace(/\s+/g, " ")`: the flag records whether the
previous character was part of a whitespace run already emitted as `' '`. -/
def collapseAux : Bool → Text → Text
  | _, [] => []
  | prevWs, c :: cs =>
    if isWs c then
      if prevWs then collapseAux true cs
      else ' ' :: collapseAux true cs
    else c :: collapseAux false cs

/-- `text.replace(/\s+/g, " ")`: every whitespace run becomes a single space. -/
def collapseWs (l : Text) : Text := collapseAux false l

/-- Right trim (drop trailing whitespace), structurally recursive. -/
def trimR : Text → Text
  | [] => []
  | c :: cs =>
    match trimR cs with
    | [] => if isWs c then [] else [c]
    | d :: ds => c :: d :: ds

/-- `String.prototype.trim()`: drop leading and trailing whitespace. -/
def trimWs (l : Text) : Text := trimR (l.dropWhile isWs)

/-- `sanitizeText(text, maxLen)` from `script.js`: collapse whitespace, trim,
and truncate to `maxLen` characters plus an ellipsis when too long. -/
def sanitizeText (text : Text) (maxLen : Nat) : Text :=
  if text.isEmpty then []
  else
    let s := trimWs (collapseWs text)
    if maxLen < s.length then trimWs (s.take maxLen) ++ ['…'] else s

/-- A catalog product record (one element of `allProducts`). -/
structure Product where
  id : Int
  name : Text
  brand : Text
  category : Text
  image : Text
  description : Text
deriving DecidableEq

/-- The projection sent to the API: only name, brand, category and the
sanitized description — no identifier, no image reference. -/
structure PayloadEntry where
  name : Text
  brand : Text
  category : Text
  description : Text
deriving DecidableEq

def toPayloadEntry (p : Product) : PayloadEntry :=
  { name := p.name
    brand := p.brand
    category := p.category
    description := sanitizeText p.description 300 }

/-- `getSelectedProductsPayload()`: map each selected id to the catalog record
(`allProducts.find`), build the sanitized projection, and drop the `null`s
produced by absent ids (`.filter(Boolean)`). -/
def getSelectedProductsPayload (sel : List Int) (allProducts : List Product) :
    List PayloadEntry :=
  (sel.map fun id =>
      (allProducts.find? fun p => p.id == id).map toPayloadEntry).reduceOption

/-! ### Messages and fixed strings -/

inductive Role where
  | system
  | user
  | assistant
deriving DecidableEq

structure Msg where
  role : Role
  content : Text
deriving DecidableEq

/-- The apostrophe character, kept out of string literals. -/
def apos : Char := Char.ofNat 39

def systemDirectiveText : Text :=
  ("You are a helpful skincare and product routine assistant. You must only " ++
   "answer questions about the generated routine or directly related topics " ++
   "(skincare, haircare, makeup, fragrance, product usage, SPF/suncare). If " ++
   "a user asks about anything unrelated (politics, finance, medical " ++
   "diagnosis beyond general skincare tips, or other off-topic subjects), " ++
   "reply briefly: \"I can only help with the routine or product-related " ++
   "questions. Please ask about skincare, haircare, makeup, fragrance, or " ++
   "the routine.\"").toList

/-- The single fixed system Message, element 0 of `conversationMessages`. -/
def systemDirective : Msg := ⟨.system, systemDirectiveText⟩

def pleaseSelectText : Text :=
  "Please select at least one product to generate a routine.".toList

def apiKeyNoticeText : Text :=
  ("OpenAI API key is not set. Create a local <code>secrets.js</code> with " ++
   "<code>const OPENAI_API_KEY = \"sk-...\";</code> and add that file to " ++
   ".gitignore.").toList

def noKeyErrorText : Text :=
  "OpenAI API key not set. Create a local secrets.js with: const OPENAI_API_KEY = ".toList
    ++ [apos] ++ "sk-...".toList ++ [apos]
    ++ "; and add it to .gitignore.".toList

def noReplyText : Text := "No reply content returned from the API.".toList

def apiErrorText (status : Nat) (body : Text) : Text :=
  "API error ".toList ++ (toString status).toList ++ ": ".toList ++ body

def errorGeneratingText (e : Text) : Text :=
  "Error generating routine: ".toList ++ e

def errorRespondingText (e : Text) : Text :=
  "Error responding: ".toList ++ e

def refusalText : Text :=
  ("I can only help with the generated routine or questions about skincare, " ++
   "haircare, makeup, fragrance, or how to use the products. Please rephrase " ++
   "your question to relate to those topics.").toList

def dotsText : Text := "...".toList

def routinePromptLead : Text :=
  ("Here are the selected products (minimal data only). Create a routine " ++
   "using only these items. For each step, mention which product(s) to use " ++
   "and why.\n\n").toList

/-! ### JSON.stringify(selected, null, 2) for the payload batch -/

def lbraceC : Char := Char.ofNat 123
def rbraceC : Char := Char.ofNat 125

def escapeJsonChar (c : Char) : Text :=
  if c = '"' then ['\\', '"']
  else if c = '\\' then ['\\', '\\']
  else if c = '\n' then ['\\', 'n']
  else if c = '\t' then ['\\', 't']
  else if c = '\r' then ['\\', 'r']
  else [c]

def jsonString (s : Text) : Text :=
  '"' :: (s.map escapeJsonChar).flatten ++ ['"']

def jsonField (key : Text) (value : Text) : Text :=
  "    ".toList ++ jsonString key ++ ": ".toList ++ jsonString value

def jsonEntry (e : PayloadEntry) : Text :=
  "  ".toList ++ [lbraceC, '\n'] ++
  jsonField "name".toList e.name ++ ",\n".toList ++
  jsonField "brand".toList e.brand ++ ",\n".toList ++
  jsonField "category".toList e.category ++ ",\n".toList ++
  jsonField "description".toList e.description ++ ['\n'] ++
  "  ".toList ++ [rbraceC]

def serializePayload (es : List PayloadEntry) : Text :=
  if es.isEmpty then "[]".toList
  else "[\n".toList ++ (List.intercalate ",\n".toList (es.map jsonEntry)) ++ "\n]".toList

/-- The hidden user Message pushed by `generateRoutine` (the `userPayload`). -/
def routinePromptMsg (selected : List PayloadEntry) : Msg :=
  ⟨.user, routinePromptLead ++ serializePayload selected⟩

/-! ### Conversation state machine -/

/-- The two ordered message logs owned by the conversation core:
`conversationMessages` (system directive + visible transcript) and
`hiddenApiMessages` (the hidden context log). -/
structure ConvState where
  conversationMessages : List Msg
  hiddenApiMessages : List Msg
deriving DecidableEq

/-- Session-start conversation state: only the system directive. -/
def initConvState : ConvState := ⟨[systemDirective], []⟩

/-- The append operations of the conversation state machine. -/
inductive ConvOp where
  | appendVisible (role : Role) (content : Text)
  | appendHidden (content : Text)

def applyConvOp : ConvState → ConvOp → ConvState
  | st, .appendVisible r c =>
      { st with conversationMessages := st.conversationMessages ++ [⟨r, c⟩] }
  | st, .appendHidden c =>
      { st with hiddenApiMessages := st.hiddenApiMessages ++ [⟨.user, c⟩] }

def applyConvOps (st : ConvState) (ops : List ConvOp) : ConvState :=
  ops.foldl applyConvOp st

def visibleOf (ops : List ConvOp) : List Msg :=
  ops.filterMap fun op =>
    match op with
    | .appendVisible r c => some ⟨r, c⟩
    | .appendHidden _ => none

def hiddenOf (ops : List ConvOp) : List Msg :=
  ops.filterMap fun op =>
    match op with
    | .appendVisible _ _ => none
    | .appendHidden c => some ⟨.user, c⟩

/-- `messagesForApi = [conversationMessages[0], ...hiddenApiMessages,
...conversationMessages.slice(1)]` (lines 422-426 and 544-548). -/
def assembleRequest (st : ConvState) : List Msg :=
  st.conversationMessages.take 1 ++ st.hiddenApiMessages ++
    st.conversationMessages.drop 1

/-! ### Topic gate (`isAllowedQuestion`) -/

def lower (l : Text) : Text := l.map Char.toLower

/-- `needle` occurs in `hay` as a contiguous substring (`String.includes`). -/
def isSubstr (needle : Text) : Text → Bool
  | [] => needle.isEmpty
  | c :: cs => needle.isPrefixOf (c :: cs) || isSubstr needle cs

def allowedKeywords : List Text :=
  ["routine".toList, "product".toList, "skincare".toList, "skin".toList,
   "haircare".toList, "hair".toList, "makeup".toList, "mascara".toList,
   "foundation".toList, "fragrance".toList, "scent".toList,
   "sunscreen".toList, "spf".toList, "cleanser".toList,
   "moisturizer".toList, "serum".toList, "retinol".toList,
   "vitamin c".toList, "hydration".toList, "acne".toList, "tone".toList,
   "texture".toList, "conditioner".toList, "shampoo".toList,
   "apply".toList, "when to use".toList, "how to use".toList,
   "step".toList, "steps".toList, "morning".toList, "night".toList,
   "pm".toList, "am".toList, "routine step".toList]

/-- `isAllowedQuestion(text)`: empty/whitespace-only text is rejected; then
the lower-cased text is matched against the keyword allow-list, then against
the non-empty lower-cased names and brands of the catalog. -/
def isAllowedQuestion (text : Text) (allProducts : List Product) : Bool :=
  if text.isEmpty then false
  else if (trimWs text).isEmpty then false
  else
    let s := lower text
    if allowedKeywords.any (fun k => isSubstr k s) then true
    else if allProducts.any (fun p =>
        (!(lower p.name).isEmpty && isSubstr (lower p.name) s) ||
        (!(lower p.brand).isEmpty && isSubstr (lower p.brand) s)) then true
    else false

/-! ### Credential and remote completion client -/

/-- `getApiKey()`: the ambient `OPENAI_API_KEY` global (`none` = undefined);
a defined but empty string is falsy, and the default fallback is `null`. -/
def getApiKey (globalKey : Option Text) : Option Text :=
  match globalKey with
  | some k => if k.isEmpty then none else some k
  | none => none

/-- Outcome of the external `fetch` to the chat-completions endpoint:
a non-success HTTP response, or a success whose single candidate content may
be absent (`null`). -/
inductive RemoteOutcome where
  | httpError (status : Nat) (body : Text)
  | success (content : Option Text)
deriving DecidableEq

/-- `sendChatMessagesAndGetReply(messages)`: throws when no key is configured,
throws `API error <status>: <body>` on a non-success response, and otherwise
returns the (possibly null) assistant content. -/
def sendChatMessagesAndGetReply (key : Option Text) (_messages : List Msg)
    (outcome : RemoteOutcome) : Except Text (Option Text) :=
  match key with
  | none => .error noKeyErrorText
  | some _ =>
    match outcome with
    | .httpError status body => .error (apiErrorText status body)
    | .success content => .ok content

/-! ### Whole-app state and the two request handlers -/

/-- What the chat window currently shows: either the rendered transcript or a
placeholder notice written directly into `chatWindow.innerHTML`. -/
inductive ChatView where
  | rendered
  | notice (text : Text)
deriving DecidableEq

/-- The module-level mutable state of `script.js` that the conversation core
reads and writes, plus a counter of issued remote requests. -/
structure AppState where
  allProducts : List Product
  selectedProductIds : List Int
  conversationMessages : List Msg
  hiddenApiMessages : List Msg
  apiKey : Option Text
  view : ChatView
  remoteCalls : Nat
deriving DecidableEq

/-- `generateRoutine()`: guard on an empty payload, then on the credential;
push the hidden payload message, assemble the request, call the remote client
and either append the assistant reply to the visible transcript or show an
error notice. The final state after the `await` completes. -/
def generateRoutine (st : AppState) (outcome : RemoteOutcome) : AppState :=
  let selected := getSelectedProductsPayload st.selectedProductIds st.allProducts
  if selected.isEmpty then
    { st with view := .notice pleaseSelectText }
  else if (getApiKey st.apiKey).isNone then
    { st with view := .notice apiKeyNoticeText }
  else
    let hidden1 := st.hiddenApiMessages ++ [routinePromptMsg selected]
    let messagesForApi := assembleRequest ⟨st.conversationMessages, hidden1⟩
    match sendChatMessagesAndGetReply (getApiKey st.apiKey) messagesForApi outcome with
    | .ok (some content) =>
        { st with
            hiddenApiMessages := hidden1
            conversationMessages := st.conversationMessages ++ [⟨.assistant, content⟩]
            view := .rendered
            remoteCalls := st.remoteCalls + 1 }
    | .ok none =>
        { st with
            hiddenApiMessages := hidden1
            view := .notice (errorGeneratingText noReplyText)
            remoteCalls := st.remoteCalls + 1 }
    | .error e =>
        { st with
            hiddenApiMessages := hidden1
            view := .notice (errorGeneratingText e)
            remoteCalls := st.remoteCalls + 1 }

/-- The chat form submit handler: trim the input, guard on the credential and
the topic gate, append the user message and the `"..."` placeholder, call the
remote client, and replace the placeholder (at `loadingIndex`) with the reply
or a formatted error. The final state after the `await` completes. -/
def chatSubmit (st : AppState) (input : Text) (outcome : RemoteOutcome) : AppState :=
  let text := trimWs input
  if text.isEmpty then st
  else if (getApiKey st.apiKey).isNone then
    { st with view := .notice apiKeyNoticeText }
  else if !isAllowedQuestion text st.allProducts then
    { st with
        conversationMessages := st.conversationMessages ++ [⟨.assistant, refusalText⟩]
        view := .rendered }
  else
    let conv1 := st.conversationMessages ++ [⟨.user, text⟩] ++ [⟨.assistant, dotsText⟩]
    let loadingIndex := conv1.length - 1
    let messagesForApi := assembleRequest ⟨conv1, st.hiddenApiMessages⟩
    match sendChatMessagesAndGetReply (getApiKey st.apiKey) messagesForApi outcome with
    | .ok (some content) =>
        { st with
            conversationMessages := conv1.set loadingIndex ⟨.assistant, content⟩
            view := .rendered
            remoteCalls := st.remoteCalls + 1 }
    | .ok none =>
        { st with
            conversationMessages :=
              conv1.set loadingIndex ⟨.assistant, errorRespondingText noReplyText⟩
            view := .rendered
            remoteCalls := st.remoteCalls + 1 }
    | .error e =>
        { st with
            conversationMessages :=
              conv1.set loadingIndex ⟨.assistant, errorRespondingText e⟩
            view := .rendered
            remoteCalls := st.remoteCalls + 1 }

/-! ### Selection reconciliation from durable storage (`loadSelectedProducts`) -/

/-- A raw value found inside the persisted JSON array. Strings are modelled
up to integral decimal literals; any value whose `Number()` coercion is `NaN`
or non-integral is folded into `nonNumeric`, since such a coercion can never
strictly equal an integral catalog id. -/
inductive RawValue where
  | num (n : Int)
  | str (s : Text)
  | nullV
  | boolV (b : Bool)
  | nonNumeric
deriving DecidableEq

def digitsVal : Text → Option Nat
  | [] => none
  | l => l.foldl (fun acc c =>
      match acc with
      | none => none
      | some n => if c.isDigit then some (n * 10 + (c.toNat - 48)) else none)
      (some 0)

/-- `Number(string)`: trim, empty coerces to 0, otherwise an optionally
signed decimal integer literal; everything else is `NaN`-like (`none`). -/
def parseJsNumber (s : Text) : Option Int :=
  match trimWs s with
  | [] => some 0
  | '-' :: rest => (digitsVal rest).map fun n => -(n : Int)
  | '+' :: rest => (digitsVal rest).map fun n => (n : Int)
  | l => (digitsVal l).map fun n => (n : Int)

/-- `Number(id)` applied to a raw persisted value (`none` = `NaN`). -/
def toNumber : RawValue → Option Int
  | .num n => some n
  | .str s => parseJsNumber s
  | .nullV => some 0
  | .boolV b => some (if b then 1 else 0)
  | .nonNumeric => none

/-- What `localStorage.getItem` + `JSON.parse` produced: absent/empty raw
value, a parse failure (caught), a non-array value, or an array of values. -/
inductive StoredState where
  | absent
  | unparsable
  | notArray
  | arr (vs : List RawValue)

/-- `Set.add`: append preserving insertion order, ignoring duplicates. -/
def addToSet (s : List Int) (n : Int) : List Int :=
  if n ∈ s then s else s ++ [n]

/-- `loadSelectedProducts()`: for each raw value, coerce with `Number` and add
it to the selection set only when some catalog product has that id; absent,
unparsable or non-array storage leaves the selection unchanged. -/
def loadSelectedProducts (stored : StoredState) (allProducts : List Product)
    (sel : List Int) : List Int :=
  match stored with
  | .absent => sel
  | .unparsable => sel
  | .notArray => sel
  | .arr vs =>
      vs.foldl (fun s v =>
        match toNumber v with
        | some numId =>
            if allProducts.any (fun p => p.id == numId) then addToSet s numId
            else s
        | none => s) sel

/-! ### Demo fixtures (concrete inputs used by witnesses and examples) -/

def demoProduct : Product :=
  { id := 1
    name := "Hydra Serum".toList
    brand := "GlowCo".toList
    category := "skincare".toList
    image := "hydra.png".toList
    description := "A lightweight hydrating serum with hyaluronic acid.".toList }

def bigDescProduct : Product :=
  { id := 2
    name := "Mega Cream".toList
    brand := "GlowCo".toList
    category := "skincare".toList
    image := "mega.png".toList
    description := List.replicate 500 'A' }

def demoState : AppState :=
  { allProducts := [demoProduct]
    selectedProductIds := [1]
    conversationMessages := [systemDirective]
    hiddenApiMessages := []
    apiKey := some "sk-demo".toList
    view := .rendered
    remoteCalls := 0 }

/-! ### Auxiliary definitions used by the statements -/

/-- The Message that replaces the `"..."` placeholder once the follow-up call
completes: the assistant reply, or a formatted `Error responding:` string. -/
def followupReply : RemoteOutcome → Msg
  | .success (some c) => ⟨.assistant, c⟩
  | .success none => ⟨.assistant, errorRespondingText noReplyText⟩
  | .httpError s b => ⟨.assistant, errorRespondingText (apiErrorText s b)⟩

/-- The persisted raw values that coerce to an id of some catalog record, in
order of appearance. -/
def validIds (vs : List RawValue) (cat : List Product) : List Int :=
  (vs.filterMap toNumber).filter fun n => cat.any fun p => p.id == n

/-- The first character, if any, is not whitespace. -/
def headNotWs : Text → Bool
  | [] => true
  | c :: _ => !isWs c

/-- The last character, if any, is not whitespace. -/
def lastNotWs : Text → Bool
  | [] => true
  | [c] => !isWs c
  | _ :: c :: cs => lastNotWs (c :: cs)

/-- No two adjacent whitespace characters. -/
def noAdjWs : Text → Bool
  | [] => true
  | c :: cs => (!isWs c || headNotWs cs) && noAdjWs cs

/-- Every whitespace character is a plain space. -/
def wsSpace (l : Text) : Bool := l.all fun c => !isWs c || c == ' '

/-! ## Theorems -/

/-- Appending operations accumulate on the right of each log. -/
lemma applyConvOps_eq (ops : List ConvOp) : ∀ c h : List Msg,
    applyConvOps ⟨c, h⟩ ops = ⟨c ++ visibleOf ops, h ++ hiddenOf ops⟩ := by
  induction ops with
  | nil => intro c h; simp [applyConvOps, visibleOf, hiddenOf]
  | cons op ops ih =>
    intro c h
    cases op with
    | appendVisible r cnt =>
      show applyConvOps ⟨c ++ [⟨r, cnt⟩], h⟩ ops = _
      rw [ih]
      simp [visibleOf, hiddenOf, List.filterMap_cons]
    | appendHidden cnt =>
      show applyConvOps ⟨c, h ++ [⟨.user, cnt⟩]⟩ ops = _
      rw [ih]
      simp [visibleOf, hiddenOf, List.filterMap_cons]

/-- **C1**: for every interleaving of `appendHidden`/`appendVisible` calls,
`assembleRequest` returns the System Directive first, then all Hidden Context
Log entries in insertion order, then all Visible Transcript entries
(excluding the system message) in insertion order. -/
theorem assembleRequest_order (ops : List ConvOp) :
    assembleRequest (applyConvOps initConvState ops) =
      [systemDirective] ++ hiddenOf ops ++ visibleOf ops := by
  have h := applyConvOps_eq ops [systemDirective] []
  rw [show initConvState = ⟨[systemDirective], []⟩ from rfl, h]
  simp [assembleRequest]

/-- **C10**: when the Selection Set yields an empty payload, `generateRoutine`
returns with only a chat-window notice: no Message is appended to either log,
the Selection Set is untouched and no remote call is made, whether or not a
credential is configured. -/
theorem generateRoutine_empty_payload (st : AppState) (outcome : RemoteOutcome)
    (h : getSelectedProductsPayload st.selectedProductIds st.allProducts = []) :
    generateRoutine st outcome = { st with view := .notice pleaseSelectText } := by
  simp [generateRoutine, h]

/-- Witness for `generateRoutine_empty_payload` at an empty selection. -/
theorem generateRoutine_empty_payload_witness :
    generateRoutine { demoState with selectedProductIds := [] }
        (.success (some "ok".toList)) =
      { demoState with selectedProductIds := [], view := .notice pleaseSelectText } :=
  generateRoutine_empty_payload _ _ rfl

/-- **C9**: a follow-up rejected by the Topic Gate (non-empty text, credential
configured, `isAllowedQuestion` false) appends exactly one fixed assistant
refusal Message to the Visible Transcript, never appends the user's text,
adds no Hidden Context Log entry and makes no remote call. -/
theorem chatSubmit_gate_rejects (st : AppState) (input : Text)
    (outcome : RemoteOutcome)
    (htext : (trimWs input).isEmpty = false)
    (hkey : (getApiKey st.apiKey).isSome = true)
    (hgate : isAllowedQuestion (trimWs input) st.allProducts = false) :
    chatSubmit st input outcome =
      { st with
          conversationMessages :=
            st.conversationMessages ++ [⟨.assistant, refusalText⟩]
          view := .rendered } := by
  obtain ⟨k, hk⟩ := Option.isSome_iff_exists.mp hkey
  simp [chatSubmit, htext, hgate, hk]

/-- Witness for `chatSubmit_gate_rejects` on an off-topic question. -/
theorem chatSubmit_gate_rejects_witness :
    chatSubmit demoState "tell me a joke".toList (.success (some "no".toList)) =
      { demoState with
          conversationMessages :=
            demoState.conversationMessages ++ [⟨.assistant, refusalText⟩]
          view := .rendered } :=
  chatSubmit_gate_rejects demoState _ _ rfl rfl (by decide)

/-- The payload builder is the sanitized projection of the found records. -/
lemma getSelectedProductsPayload_eq (sel : List Int) (cat : List Product) :
    getSelectedProductsPayload sel cat =
      (sel.filterMap fun id => cat.find? fun p => p.id == id).map toPayloadEntry := by
  simp [getSelectedProductsPayload, List.reduceOption, List.filterMap_map,
    List.map_filterMap]

lemma length_filterMap_eq_length_filter {α β : Type} (f : α → Option β)
    (l : List α) :
    (l.filterMap f).length = (l.filter fun a => (f a).isSome).length := by
  induction l with
  | nil => rfl
  | cons a l ih =>
    cases h : f a <;> simp [List.filterMap_cons, h, List.filter_cons, ih]

/-- A selection whose ids are all found in the catalog yields a nonempty
payload whenever it is nonempty. -/
lemma payload_ne_of_all_found (st : AppState)
    (hinv : st.selectedProductIds.all
      (fun id => st.allProducts.any fun p => p.id == id) = true)
    (hne : st.selectedProductIds.isEmpty = false) :
    (getSelectedProductsPayload st.selectedProductIds st.allProducts).isEmpty
      = false := by
  cases hsel : st.selectedProductIds with
  | nil => rw [hsel] at hne; simp at hne
  | cons id rest =>
    have h1 : (st.allProducts.any fun p => p.id == id) = true := by
      rw [hsel] at hinv
      simp only [List.all_cons, Bool.and_eq_true] at hinv
      exact hinv.1
    have h2 : (st.allProducts.find? fun p => p.id == id).isSome = true := by
      rw [List.find?_isSome]
      simpa [List.any_eq_true] using h1
    obtain ⟨p, hp⟩ := Option.isSome_iff_exists.mp h2
    rw [getSelectedProductsPayload_eq]
    simp [List.filterMap_cons, hp]

/-- **C5**: with no credential configured and a non-empty Selection Set (whose
members, per the data-model invariant, all correspond to catalog records),
`generateRoutine` short-circuits to the `AuthError`-derived notice before any
remote call, appending nothing to either message log. -/
theorem generateRoutine_no_key (st : AppState) (outcome : RemoteOutcome)
    (hinv : st.selectedProductIds.all
      (fun id => st.allProducts.any fun p => p.id == id) = true)
    (hne : st.selectedProductIds.isEmpty = false)
    (hkey : getApiKey st.apiKey = none) :
    generateRoutine st outcome = { st with view := .notice apiKeyNoticeText } := by
  have hpay := payload_ne_of_all_found st hinv hne
  simp [generateRoutine, hpay, hkey]

/-- Witness for `generateRoutine_no_key`: one valid selected product, no key. -/
theorem generateRoutine_no_key_witness :
    generateRoutine { demoState with apiKey := none }
        (.success (some "ok".toList)) =
      { demoState with apiKey := none, view := .notice apiKeyNoticeText } :=
  generateRoutine_no_key _ _ (by decide) rfl rfl

/-- **C2 (counterexample)**: a routine-generation request that fails with a
remote error (the view shows the formatted error) still grows the Hidden
Context Log by one entry, because `generateRoutine` pushes the payload
message before awaiting the remote call. -/
theorem hidden_log_grows_on_failed_request :
    demoState.hiddenApiMessages.length = 0 ∧
    (generateRoutine demoState (.httpError 500 "boom".toList)).view =
      .notice (errorGeneratingText (apiErrorText 500 "boom".toList)) ∧
    (generateRoutine demoState (.httpError 500 "boom".toList)).hiddenApiMessages.length
      = 1 := by
  refine ⟨rfl, ?_, ?_⟩ <;> rfl

/-- **C2 (amended)**: the Hidden Context Log grows by exactly one entry per
routine-generation request that passes both local guards (non-empty payload
and configured credential) — whether the remote call succeeds or fails — and
is unchanged by requests that fail a guard. -/
theorem generateRoutine_hidden_log_growth :
    (∀ (st : AppState) (outcome : RemoteOutcome),
        (getSelectedProductsPayload st.selectedProductIds st.allProducts).isEmpty
            = false →
        (getApiKey st.apiKey).isSome = true →
        (generateRoutine st outcome).hiddenApiMessages =
          st.hiddenApiMessages ++
            [routinePromptMsg
              (getSelectedProductsPayload st.selectedProductIds st.allProducts)]) ∧
    (∀ (st : AppState) (outcome : RemoteOutcome),
        (getSelectedProductsPayload st.selectedProductIds st.allProducts).isEmpty
            = true ∨ getApiKey st.apiKey = none →
        (generateRoutine st outcome).hiddenApiMessages = st.hiddenApiMessages) := by
  constructor
  · intro st outcome hpay hkey
    obtain ⟨k, hk⟩ := Option.isSome_iff_exists.mp hkey
    cases outcome with
    | httpError status body =>
      simp [generateRoutine, hpay, hk, sendChatMessagesAndGetReply]
    | success content =>
      cases content <;>
        simp [generateRoutine, hpay, hk, sendChatMessagesAndGetReply]
  · intro st outcome h
    rcases h with h | h
    · simp [generateRoutine, h]
    · by_cases hpay :
        (getSelectedProductsPayload st.selectedProductIds st.allProducts).isEmpty
          = true
      · simp [generateRoutine, hpay]
      · simp [generateRoutine, hpay, h]

/-- Witness for `generateRoutine_hidden_log_growth`: a successful request
appends one entry; a request without a credential leaves the log unchanged. -/
theorem generateRoutine_hidden_log_growth_witness :
    (generateRoutine demoState (.success (some "ok".toList))).hiddenApiMessages =
      demoState.hiddenApiMessages ++
        [routinePromptMsg
          (getSelectedProductsPayload demoState.selectedProductIds
            demoState.allProducts)] ∧
    (generateRoutine { demoState with apiKey := none }
        (.success (some "ok".toList))).hiddenApiMessages =
      { demoState with apiKey := none }.hiddenApiMessages :=
  ⟨generateRoutine_hidden_log_growth.1 demoState _ rfl rfl,
   generateRoutine_hidden_log_growth.2 _ _ (Or.inr rfl)⟩

set_option maxRecDepth 8192 in
/-- **C6**: `getSelectedProductsPayload` emits, in selection order, exactly the
sanitized projections (`toPayloadEntry`: only name, brand, category and the
description sanitized at 300 characters — `PayloadEntry` carries no identifier
and no image field) of the catalog records found for the selected ids; absent
ids are skipped without error, so the length equals the number of selected ids
present in the catalog; a 500-character description yields an entry whose
description has length 301 (300 characters plus the ellipsis marker). -/
theorem buildPayload_spec :
    (∀ (sel : List Int) (cat : List Product),
        getSelectedProductsPayload sel cat =
          (sel.filterMap fun id => cat.find? fun p => p.id == id).map
            toPayloadEntry) ∧
    (∀ (sel : List Int) (cat : List Product),
        (getSelectedProductsPayload sel cat).length =
          (sel.filter fun id => (cat.find? fun p => p.id == id).isSome).length) ∧
    (getSelectedProductsPayload [2] [bigDescProduct]).map
        (fun e => e.description.length) = [301] ∧
    getSelectedProductsPayload [1, 99] [demoProduct] = [toPayloadEntry demoProduct] := by
  refine ⟨getSelectedProductsPayload_eq, ?_, ?_, ?_⟩
  · intro sel cat
    rw [getSelectedProductsPayload_eq, List.length_map,
      length_filterMap_eq_length_filter]
  · rfl
  · rfl

/-- Setting the penultimate element of `xs ++ [a, b]` replaces `b`'s neighbour
`a`... no: it replaces the element at index `|xs| + 1`, i.e. `b`. -/
lemma set_snoc_snoc {α : Type} (xs : List α) (a b m : α) :
    (xs ++ [a, b]).set (xs.length + 1) m = xs ++ [a, m] := by
  induction xs with
  | nil => rfl
  | cons x xs ih => simp [ih]

/-- **C7**: a follow-up that passes the Topic Gate ends with the placeholder
assistant Message replaced in place, at its recorded position
(`loadingIndex = |transcript| + 1`), by the reply content or a formatted
error string; every other Visible Transcript entry and the transcript length
are unchanged, so the `"..."` marker never survives the call. -/
theorem chatSubmit_resolves_placeholder (st : AppState) (input : Text)
    (outcome : RemoteOutcome)
    (htext : (trimWs input).isEmpty = false)
    (hkey : (getApiKey st.apiKey).isSome = true)
    (hgate : isAllowedQuestion (trimWs input) st.allProducts = true) :
    (chatSubmit st input outcome).conversationMessages =
      (st.conversationMessages ++
        [Msg.mk .user (trimWs input), Msg.mk .assistant dotsText]).set
        (st.conversationMessages.length + 1) (followupReply outcome) ∧
    (chatSubmit st input outcome).conversationMessages =
      st.conversationMessages ++
        [Msg.mk .user (trimWs input), followupReply outcome] ∧
    (chatSubmit st input outcome).conversationMessages.length =
      (st.conversationMessages ++
        [Msg.mk .user (trimWs input), Msg.mk .assistant dotsText]).length ∧
    (followupReply outcome).role = .assistant ∧
    chatSubmit st input outcome =
      { st with
          conversationMessages :=
            st.conversationMessages ++
              [⟨.user, trimWs input⟩, followupReply outcome]
          view := .rendered
          remoteCalls := st.remoteCalls + 1 } := by
  obtain ⟨k, hk⟩ := Option.isSome_iff_exists.mp hkey
  have hmain : chatSubmit st input outcome =
      { st with
          conversationMessages :=
            st.conversationMessages ++
              [⟨.user, trimWs input⟩, followupReply outcome]
          view := .rendered
          remoteCalls := st.remoteCalls + 1 } := by
    have hset := @set_snoc_snoc Msg st.conversationMessages
      ⟨.user, trimWs input⟩ ⟨.assistant, dotsText⟩ (followupReply outcome)
    cases outcome with
    | httpError status body =>
      simp only [chatSubmit, htext, hk, Bool.false_eq_true, if_false, hgate,
        Bool.not_true, sendChatMessagesAndGetReply, followupReply] at hset ⊢
      simp only [List.append_assoc, List.singleton_append, List.length_append,
        List.length_cons, List.length_nil] at hset ⊢
      simp [hset]
    | success content =>
      cases content with
      | none =>
        simp only [chatSubmit, htext, hk, Bool.false_eq_true, if_false, hgate,
          Bool.not_true, sendChatMessagesAndGetReply, followupReply] at hset ⊢
        simp only [List.append_assoc, List.singleton_append, List.length_append,
          List.length_cons, List.length_nil] at hset ⊢
        simp [hset]
      | some c =>
        simp only [chatSubmit, htext, hk, Bool.false_eq_true, if_false, hgate,
          Bool.not_true, sendChatMessagesAndGetReply, followupReply] at hset ⊢
        simp only [List.append_assoc, List.singleton_append, List.length_append,
          List.length_cons, List.length_nil] at hset ⊢
        simp [hset]
  refine ⟨?_, ?_, ?_, ?_, hmain⟩
  · rw [hmain]
    exact (@set_snoc_snoc Msg st.conversationMessages
      ⟨.user, trimWs input⟩ ⟨.assistant, dotsText⟩ (followupReply outcome)).symm
  · rw [hmain]
  · rw [hmain]
    simp [List.length_append]
  · cases outcome with
    | httpError status body => rfl
    | success content => cases content <;> rfl

/-- Witness for `chatSubmit_resolves_placeholder` on an on-topic follow-up. -/
theorem chatSubmit_resolves_placeholder_witness :
    (chatSubmit demoState "When should I apply the serum?".toList
        (.success (some "At night.".toList))).conversationMessages =
      demoState.conversationMessages ++
        [Msg.mk .user (trimWs "When should I apply the serum?".toList),
         followupReply (.success (some "At night.".toList))] ∧
    (followupReply (.success (some "At night.".toList))).role = .assistant :=
  ⟨(chatSubmit_resolves_placeholder demoState
      "When should I apply the serum?".toList
      (.success (some "At night.".toList)) rfl rfl (by decide)).2.1,
   (chatSubmit_resolves_placeholder demoState
      "When should I apply the serum?".toList
      (.success (some "At night.".toList)) rfl rfl (by decide)).2.2.2.1⟩

/-- `loadSelectedProducts` on a stored array folds one value at a time. -/
lemma load_arr_cons (v : RawValue) (vs : List RawValue) (cat : List Product)
    (sel : List Int) :
    loadSelectedProducts (.arr (v :: vs)) cat sel =
      loadSelectedProducts (.arr vs) cat
        (match toNumber v with
         | some numId =>
             if cat.any (fun p => p.id == numId) then addToSet sel numId else sel
         | none => sel) := rfl

lemma load_arr_eq (vs : List RawValue) (cat : List Product) : ∀ sel : List Int,
    loadSelectedProducts (.arr vs) cat sel = (validIds vs cat).foldl addToSet sel := by
  induction vs with
  | nil => intro sel; rfl
  | cons v vs ih =>
    intro sel
    rw [load_arr_cons]
    cases hv : toNumber v with
    | none => simp only [validIds, List.filterMap_cons, hv]; exact ih sel
    | some n =>
      by_cases hvalid : (cat.any fun p => p.id == n) = true
      · simp only [validIds, List.filterMap_cons, hv, hvalid, if_true,
          List.filter_cons, List.foldl_cons]
        exact ih (addToSet sel n)
      · simp only [validIds, List.filterMap_cons, hv,
          Bool.not_eq_true] at hvalid ⊢
        simp only [hvalid, if_false, List.filter_cons, Bool.false_eq_true]
        exact ih sel

lemma mem_foldl_addToSet (l : List Int) : ∀ (s : List Int) (n : Int),
    n ∈ l.foldl addToSet s → n ∈ s ∨ n ∈ l := by
  induction l with
  | nil => intro s n h; exact Or.inl h
  | cons a l ih =>
    intro s n h
    rcases ih (addToSet s a) n h with h' | h'
    · unfold addToSet at h'
      split at h'
      · exact Or.inl h'
      · rcases List.mem_append.mp h' with h'' | h''
        · exact Or.inl h''
        · simp only [List.mem_singleton] at h''
          exact Or.inr (h'' ▸ List.mem_cons_self a l)
    · exact Or.inr (List.mem_cons_of_mem a h')

/-- **C8**: reconciliation of persisted raw identifiers: each raw value is
coerced with `Number()`; the resulting Selection Set is exactly the
insertion-ordered set of coerced values that match a catalog id (a subset of
the catalog's ids), all other entries being dropped; absent, unparsable or
non-array storage never throws and leaves the selection unchanged. -/
theorem reconcileWithCatalog_spec :
    (∀ (vs : List RawValue) (cat : List Product),
        loadSelectedProducts (.arr vs) cat [] = (validIds vs cat).foldl addToSet []) ∧
    (∀ (vs : List RawValue) (cat : List Product),
        (loadSelectedProducts (.arr vs) cat []).all
          (fun n => cat.any fun p => p.id == n) = true) ∧
    (∀ (cat : List Product) (sel : List Int),
        loadSelectedProducts .absent cat sel = sel ∧
        loadSelectedProducts .unparsable cat sel = sel ∧
        loadSelectedProducts .notArray cat sel = sel) ∧
    loadSelectedProducts
        (.arr [.num 1, .str "2".toList, .str "junk".toList, .nullV, .num 1])
        [demoProduct, bigDescProduct] [] = [1, 2] := by
  refine ⟨fun vs cat => load_arr_eq vs cat [], ?_, fun cat sel => ⟨rfl, rfl, rfl⟩,
    by decide⟩
  intro vs cat
  rw [load_arr_eq]
  rw [List.all_eq_true]
  intro n hn
  rcases mem_foldl_addToSet (validIds vs cat) [] n hn with h | h
  · simp at h
  · exact (List.mem_filter.mp h).2

/-- `isSubstr` decides `String.includes`, i.e. contiguous containment. -/
lemma isSubstr_iff (n : Text) : ∀ h : Text, isSubstr n h = true ↔ n <:+: h := by
  intro h
  induction h with
  | nil =>
    simp [isSubstr, List.isEmpty_iff, List.infix_nil]
  | cons c cs ih =>
    simp only [isSubstr, Bool.or_eq_true, List.isPrefixOf_iff_prefix, ih,
      List.infix_cons_iff]

/-- **C3**: the Topic Gate returns false on empty or whitespace-only text, and
otherwise returns true exactly when the lower-cased text contains some
allow-list keyword as a substring, or contains the lower-cased non-empty name
or brand of some catalog record; in particular the serum question is allowed
and the stock-market question is rejected against a catalog whose name and
brand do not occur in it. -/
theorem topicGate_spec :
    (∀ (text : Text) (cat : List Product),
        isAllowedQuestion text cat = true ↔
          (trimWs text ≠ [] ∧
            ((∃ k ∈ allowedKeywords, k <:+: lower text) ∨
             (∃ p ∈ cat,
                (lower p.name ≠ [] ∧ lower p.name <:+: lower text) ∨
                (lower p.brand ≠ [] ∧ lower p.brand <:+: lower text))))) ∧
    isAllowedQuestion "What time should I apply my serum?".toList [demoProduct]
      = true ∧
    isAllowedQuestion
      ("What".toList ++ [apos] ++ "s today".toList ++ [apos] ++
        "s stock market doing?".toList) [demoProduct] = false := by
  refine ⟨?_, by decide, by decide⟩
  intro text cat
  by_cases h0 : text.isEmpty
  · have ht : text = [] := List.isEmpty_iff.mp h0
    subst ht
    simp [isAllowedQuestion, trimWs, trimR]
  · by_cases h1 : (trimWs text).isEmpty
    · have ht : trimWs text = [] := List.isEmpty_iff.mp h1
      simp [isAllowedQuestion, h0, h1, ht]
    · have ht : trimWs text ≠ [] := by
        intro hcontra
        rw [hcontra] at h1
        exact h1 rfl
      simp only [isAllowedQuestion, h0, h1, Bool.false_eq_true, if_false, ht,
        true_and, ne_eq, not_false_iff]
      split
      · rename_i hkw
        simp only [List.any_eq_true, isSubstr_iff] at hkw
        simp only [true_iff]
        exact Or.inl (by simpa using hkw)
      · rename_i hkw
        split
        · rename_i hprod
          simp only [List.any_eq_true, Bool.or_eq_true, Bool.and_eq_true,
            Bool.not_eq_true', List.isEmpty_eq_false, isSubstr_iff, ne_eq]
            at hprod
          simp only [true_iff]
          refine Or.inr ?_
          simpa using hprod
        · rename_i hprod
          simp only [List.any_eq_true, isSubstr_iff, not_exists] at hkw
          simp only [List.any_eq_true, Bool.or_eq_true, Bool.and_eq_true,
            Bool.not_eq_true', List.isEmpty_eq_false, isSubstr_iff, ne_eq]
            at hprod
          simp only [Bool.false_eq_true, false_iff, not_or]
          constructor
          · intro hcontra
            rcases hcontra with ⟨k, hk, hinf⟩
            exact hkw k ⟨hk, hinf⟩
          · intro hcontra
            exact hprod (by simpa using hcontra)

/-! ### Lemmas about `collapseWs`, `trimWs` and `sanitizeText` -/

lemma collapse_wsSpace : ∀ (l : Text) (b : Bool),
    wsSpace (collapseAux b l) = true := by
  intro l
  induction l with
  | nil => intro b; rfl
  | cons c cs ih =>
    intro b
    by_cases hc : isWs c = true
    · cases b with
      | true =>
        simp only [collapseAux, hc, if_true]
        exact ih true
      | false =>
        simp only [collapseAux, hc, if_true, wsSpace, List.all_cons,
          Bool.and_eq_true]
        exact ih true
    · simp only [collapseAux, hc, Bool.false_eq_true, if_false, wsSpace,
        List.all_cons, Bool.and_eq_true]
      exact ⟨by simp [hc], ih false⟩

lemma collapse_headNotWs_true : ∀ l : Text,
    headNotWs (collapseAux true l) = true := by
  intro l
  induction l with
  | nil => rfl
  | cons c cs ih =>
    by_cases hc : isWs c = true
    · simpa [collapseAux, hc] using ih
    · simp [collapseAux, hc, headNotWs]

lemma collapse_noAdj : ∀ (l : Text) (b : Bool),
    noAdjWs (collapseAux b l) = true := by
  intro l
  induction l with
  | nil => intro b; rfl
  | cons c cs ih =>
    intro b
    by_cases hc : isWs c = true
    · cases b with
      | true => simpa [collapseAux, hc] using ih true
      | false =>
        simp only [collapseAux, hc, if_true]
        simp only [noAdjWs, Bool.and_eq_true]
        refine ⟨?_, ih true⟩
        simp [isWs, collapse_headNotWs_true cs]
    · simp only [collapseAux, hc, Bool.false_eq_true, if_false]
      simp only [noAdjWs, Bool.and_eq_true]
      exact ⟨by simp [hc], ih false⟩

lemma collapse_fixed : ∀ l : Text, wsSpace l = true → noAdjWs l = true →
    collapseAux false l = l ∧ (headNotWs l = true → collapseAux true l = l) := by
  intro l
  induction l with
  | nil => intro _ _; exact ⟨rfl, fun _ => rfl⟩
  | cons c cs ih =>
    intro hws hna
    simp only [wsSpace, List.all_cons, Bool.and_eq_true] at hws
    simp only [noAdjWs, Bool.and_eq_true] at hna
    have ihcs := ih hws.2 hna.2
    by_cases hc : isWs c = true
    · have hsp : c = ' ' := by
        have := hws.1
        simp [hc] at this
        exact this
      have hhead : headNotWs cs = true := by
        have := hna.1
        simp [hc] at this
        exact this
      constructor
      · simp only [collapseAux, hc, if_true]
        rw [ihcs.2 hhead, hsp]
        simp
      · intro hh
        simp [headNotWs, hc] at hh
    · constructor
      · simp only [collapseAux, hc, Bool.false_eq_true, if_false]
        rw [ihcs.1]
      · intro _
        simp only [collapseAux, hc, Bool.false_eq_true, if_false]
        rw [ihcs.1]

lemma dropWhile_headNotWs (l : Text) : headNotWs (l.dropWhile isWs) = true := by
  induction l with
  | nil => rfl
  | cons c cs ih =>
    by_cases hc : isWs c = true
    · simpa [List.dropWhile_cons, hc] using ih
    · simp [List.dropWhile_cons, hc, headNotWs]

lemma dropWhile_noAdj (l : Text) (h : noAdjWs l = true) :
    noAdjWs (l.dropWhile isWs) = true := by
  induction l with
  | nil => exact h
  | cons c cs ih =>
    simp only [noAdjWs, Bool.and_eq_true] at h
    by_cases hc : isWs c = true
    · simpa [List.dropWhile_cons, hc] using ih h.2
    · simpa [List.dropWhile_cons, hc, noAdjWs, Bool.and_eq_true] using h

lemma dropWhile_wsSpace (l : Text) (h : wsSpace l = true) :
    wsSpace (l.dropWhile isWs) = true := by
  induction l with
  | nil => exact h
  | cons c cs ih =>
    simp only [wsSpace, List.all_cons, Bool.and_eq_true] at h
    by_cases hc : isWs c = true
    · simpa [List.dropWhile_cons, hc] using ih h.2
    · simpa [List.dropWhile_cons, hc, wsSpace, List.all_cons,
        Bool.and_eq_true] using h

lemma dropWhile_fixed (l : Text) (h : headNotWs l = true) :
    l.dropWhile isWs = l := by
  cases l with
  | nil => rfl
  | cons c cs =>
    simp only [headNotWs, Bool.not_eq_true'] at h
    simp [List.dropWhile_cons, h]

lemma trimR_cons (c : Char) (cs : Text) :
    trimR (c :: cs) = match trimR cs with
      | [] => if isWs c then [] else [c]
      | d :: ds => c :: d :: ds := rfl

lemma trimR_lastNotWs (l : Text) : lastNotWs (trimR l) = true := by
  induction l with
  | nil => rfl
  | cons c cs ih =>
    rw [trimR_cons]
    cases hr : trimR cs with
    | nil =>
      by_cases hc : isWs c = true
      · simp [hc]; rfl
      · simp only [hc, Bool.false_eq_true, if_false]
        simp [lastNotWs, hc]
    | cons d ds =>
      rw [hr] at ih
      exact ih

lemma trimR_headNotWs (l : Text) (h : headNotWs l = true) :
    headNotWs (trimR l) = true := by
  cases l with
  | nil => rfl
  | cons c cs =>
    have h' : isWs c = false := by
      simpa [headNotWs, Bool.not_eq_true'] using h
    rw [trimR_cons]
    cases hr : trimR cs with
    | nil => simp [h', headNotWs]
    | cons d ds => simp [headNotWs, h']

lemma trimR_noAdj (l : Text) (h : noAdjWs l = true) :
    noAdjWs (trimR l) = true := by
  induction l with
  | nil => exact h
  | cons c cs ih =>
    simp only [noAdjWs, Bool.and_eq_true] at h
    have ihcs := ih h.2
    rw [trimR_cons]
    cases hr : trimR cs with
    | nil =>
      by_cases hc : isWs c = true
      · simp [hc, noAdjWs]
      · simp [hc, noAdjWs, headNotWs]
    | cons d ds =>
      rw [hr] at ihcs
      show ((!isWs c || headNotWs (d :: ds)) && noAdjWs (d :: ds)) = true
      rw [Bool.and_eq_true]
      refine ⟨?_, ihcs⟩
      have h1 := h.1
      simp only [Bool.or_eq_true] at h1
      rcases h1 with h1 | h1
      · simp [h1]
      · have h2 := trimR_headNotWs cs h1
        rw [hr] at h2
        simp [h2]

lemma trimR_wsSpace (l : Text) (h : wsSpace l = true) :
    wsSpace (trimR l) = true := by
  induction l with
  | nil => exact h
  | cons c cs ih =>
    simp only [wsSpace, List.all_cons, Bool.and_eq_true] at h
    have ihcs := ih h.2
    rw [trimR_cons]
    cases hr : trimR cs with
    | nil =>
      by_cases hc : isWs c = true
      · simp [hc, wsSpace]
      · simp [hc, wsSpace]
    | cons d ds =>
      rw [hr] at ihcs
      show ((!isWs c || c == ' ') && (d :: ds).all fun x => !isWs x || x == ' ') = true
      rw [Bool.and_eq_true]
      exact ⟨h.1, ihcs⟩

lemma trimR_fixed (l : Text) (h : lastNotWs l = true) : trimR l = l := by
  induction l with
  | nil => rfl
  | cons c cs ih =>
    cases cs with
    | nil =>
      have h' : isWs c = false := by
        simpa [lastNotWs, Bool.not_eq_true'] using h
      simp [trimR_cons, trimR, h']
    | cons d ds =>
      have h' : lastNotWs (d :: ds) = true := h
      have htail := ih h'
      rw [trimR_cons, htail]

lemma trimR_length_le (l : Text) : (trimR l).length ≤ l.length := by
  induction l with
  | nil => exact Nat.le_refl 0
  | cons c cs ih =>
    rw [trimR_cons]
    cases hr : trimR cs with
    | nil =>
      by_cases hc : isWs c = true
      · simp [hc]
      · simp [hc]
    | cons d ds =>
      rw [hr] at ih
      simp only [List.length_cons]
      exact Nat.succ_le_succ ih

lemma trimWs_headNotWs (l : Text) : headNotWs (trimWs l) = true :=
  trimR_headNotWs _ (dropWhile_headNotWs l)

lemma trimWs_lastNotWs (l : Text) : lastNotWs (trimWs l) = true :=
  trimR_lastNotWs _

lemma trimWs_noAdj (l : Text) (h : noAdjWs l = true) :
    noAdjWs (trimWs l) = true :=
  trimR_noAdj _ (dropWhile_noAdj l h)

lemma trimWs_wsSpace (l : Text) (h : wsSpace l = true) :
    wsSpace (trimWs l) = true :=
  trimR_wsSpace _ (dropWhile_wsSpace l h)

lemma trimWs_fixed (l : Text) (hh : headNotWs l = true)
    (hl : lastNotWs l = true) : trimWs l = l := by
  unfold trimWs
  rw [dropWhile_fixed l hh]
  exact trimR_fixed l hl

lemma length_dropWhile_le (l : Text) : (l.dropWhile isWs).length ≤ l.length := by
  induction l with
  | nil => exact Nat.le_refl 0
  | cons c cs ih =>
    by_cases hc : isWs c = true
    · rw [List.dropWhile_cons_of_pos hc]
      exact Nat.le_trans ih (Nat.le_succ _)
    · rw [List.dropWhile_cons_of_neg (by simpa using hc)]

lemma trimWs_length_le (l : Text) : (trimWs l).length ≤ l.length :=
  Nat.le_trans (trimR_length_le _) (length_dropWhile_le l)

lemma headNotWs_take (l : Text) (n : Nat) (h : headNotWs l = true) :
    headNotWs (l.take n) = true := by
  cases l with
  | nil => simp [List.take_nil, headNotWs]
  | cons c cs =>
    cases n with
    | zero => rfl
    | succ n => exact h

lemma noAdj_take (l : Text) (h : noAdjWs l = true) : ∀ n : Nat,
    noAdjWs (l.take n) = true := by
  induction l with
  | nil => intro n; simp [List.take_nil]; rfl
  | cons c cs ih =>
    intro n
    simp only [noAdjWs, Bool.and_eq_true] at h
    cases n with
    | zero => rfl
    | succ n =>
      show ((!isWs c || headNotWs (cs.take n)) && noAdjWs (cs.take n)) = true
      rw [Bool.and_eq_true]
      refine ⟨?_, ih h.2 n⟩
      have h1 := h.1
      simp only [Bool.or_eq_true] at h1
      rcases h1 with h1 | h1
      · simp [h1]
      · simp [headNotWs_take cs n h1]

lemma wsSpace_take (l : Text) (h : wsSpace l = true) (n : Nat) :
    wsSpace (l.take n) = true := by
  simp only [wsSpace, List.all_eq_true] at h ⊢
  intro c hc
  exact h c (List.mem_of_mem_take hc)

lemma headNotWs_append_single (q : Text) (c : Char) (hc : isWs c = false)
    (hq : headNotWs q = true) : headNotWs (q ++ [c]) = true := by
  cases q with
  | nil => simpa [headNotWs] using hc
  | cons d ds => exact hq

lemma lastNotWs_append_single (q : Text) (c : Char) (hc : isWs c = false) :
    lastNotWs (q ++ [c]) = true := by
  induction q with
  | nil => simpa [lastNotWs] using hc
  | cons d ds ih =>
    cases ds with
    | nil => simpa [lastNotWs] using ih
    | cons e es => simpa [lastNotWs] using ih

lemma noAdj_append_single (q : Text) (c : Char) (hc : isWs c = false)
    (h : noAdjWs q = true) : noAdjWs (q ++ [c]) = true := by
  induction q with
  | nil => simp [noAdjWs, headNotWs]
  | cons d ds ih =>
    simp only [noAdjWs, Bool.and_eq_true] at h
    show ((!isWs d || headNotWs (ds ++ [c])) && noAdjWs (ds ++ [c])) = true
    rw [Bool.and_eq_true]
    refine ⟨?_, ih h.2⟩
    have h1 := h.1
    simp only [Bool.or_eq_true] at h1
    rcases h1 with h1 | h1
    · simp [h1]
    · cases ds with
      | nil => simp [headNotWs, hc]
      | cons e es =>
        have he : isWs e = false := by simpa [headNotWs] using h1
        simp [headNotWs, he]

lemma wsSpace_append_single (q : Text) (c : Char) (hc : isWs c = false)
    (h : wsSpace q = true) : wsSpace (q ++ [c]) = true := by
  simp only [wsSpace, List.all_append, List.all_cons, List.all_nil,
    Bool.and_eq_true] at h ⊢
  exact ⟨h, by simp [hc], trivial⟩

/-- A string all of whose whitespace is single interior spaces is a fixed
point of whitespace collapsing. -/
lemma collapseWs_fixed (l : Text) (hws : wsSpace l = true)
    (hna : noAdjWs l = true) : collapseWs l = l :=
  (collapse_fixed l hws hna).1

lemma sanitizeText_eq (text : Text) (m : Nat) (h0 : text.isEmpty = false) :
    sanitizeText text m =
      if m < (trimWs (collapseWs text)).length then
        trimWs ((trimWs (collapseWs text)).take m) ++ ['…']
      else trimWs (collapseWs text) := by
  simp only [sanitizeText, h0, Bool.false_eq_true, if_false]

/-- A collapsed, trimmed string of legal length is a fixed point of
`sanitizeText`. -/
lemma sanitize_fixed (u : Text) (m : Nat)
    (hws : wsSpace u = true) (hna : noAdjWs u = true)
    (hh : headNotWs u = true) (hl : lastNotWs u = true)
    (hlen : u.length ≤ m) : sanitizeText u m = u := by
  by_cases hse : u.isEmpty
  · rw [List.isEmpty_iff.mp hse]; rfl
  · rw [sanitizeText_eq u m (by simpa using hse)]
    rw [collapseWs_fixed u hws hna, trimWs_fixed u hh hl]
    rw [if_neg (by omega)]

/-- **C4**: `sanitizeText` is idempotent: a second application with the same
`maxLen` returns the first application's output unchanged; on
`"a    b    c    extra words here"` with limit 10 it collapses whitespace and
truncates to 10 characters plus the ellipsis marker, and sanitizing that
result again with limit 10 returns the identical string. -/
theorem sanitize_idempotent :
    (∀ (text : Text) (maxLen : Nat),
        sanitizeText (sanitizeText text maxLen) maxLen =
          sanitizeText text maxLen) ∧
    sanitizeText "a    b    c    extra words here".toList 10 =
      "a b c extr".toList ++ ['…'] ∧
    sanitizeText ("a b c extr".toList ++ ['…']) 10 =
      "a b c extr".toList ++ ['…'] := by
  refine ⟨?_, by decide, by decide⟩
  intro text m
  by_cases h0 : text.isEmpty
  · rw [List.isEmpty_iff.mp h0]; rfl
  · have h0' : text.isEmpty = false := by simpa using h0
    rw [sanitizeText_eq text m h0']
    have hws := trimWs_wsSpace (collapseWs text) (collapse_wsSpace text false)
    have hna := trimWs_noAdj (collapseWs text) (collapse_noAdj text false)
    have hh := trimWs_headNotWs (collapseWs text)
    have hl := trimWs_lastNotWs (collapseWs text)
    revert hws hna hh hl
    generalize trimWs (collapseWs text) = s
    intro hws hna hh hl
    have hce : isWs '…' = false := by decide
    by_cases hlen : m < s.length
    · rw [if_pos hlen]
      have hqh := trimWs_headNotWs (s.take m)
      have hql := trimWs_lastNotWs (s.take m)
      have hqna := trimWs_noAdj (s.take m) (noAdj_take s hna m)
      have hqws := trimWs_wsSpace (s.take m) (wsSpace_take s hws m)
      have hqle : (trimWs (s.take m)).length ≤ m :=
        Nat.le_trans (trimWs_length_le _)
          (by rw [List.length_take]; exact Nat.min_le_left _ _)
      rcases Nat.lt_or_ge (trimWs (s.take m)).length m with hq2 | hq2
      · exact sanitize_fixed _ m (wsSpace_append_single _ _ hce hqws)
          (noAdj_append_single _ _ hce hqna)
          (headNotWs_append_single _ _ hce hqh)
          (lastNotWs_append_single _ _ hce)
          (by simp only [List.length_append, List.length_cons,
            List.length_nil]; omega)
      · have hqm : (trimWs (s.take m)).length = m := Nat.le_antisymm hqle hq2
        have h0u : (trimWs (s.take m) ++ ['…']).isEmpty = false := by
          cases htr : trimWs (s.take m) <;> rfl
        rw [sanitizeText_eq _ m h0u]
        rw [collapseWs_fixed _ (wsSpace_append_single _ _ hce hqws)
          (noAdj_append_single _ _ hce hqna)]
        rw [trimWs_fixed _ (headNotWs_append_single _ _ hce hqh)
          (lastNotWs_append_single _ _ hce)]
        rw [if_pos (by simp [hqm])]
        have htake : (trimWs (s.take m) ++ ['…']).take m = trimWs (s.take m) := by
          have hbase := List.take_left (trimWs (s.take m)) ['…']
          rwa [hqm] at hbase
        rw [htake, trimWs_fixed _ hqh hql]
    · rw [if_neg hlen]
      exact sanitize_fixed s m hws hna hh hl (Nat.le_of_not_lt hlen)

end RoutineBuilder
